import Mathlib

/-!
Verification of the Trait-Fuzzer orchestration engine (`trait-fuzzer/main.py`
and `trait-fuzzer/utils/compiler/interface.py`) against its specification.

The Python code is shallowly embedded: pure computations become Lean
functions, the mutable selector / retention / promotion state becomes
explicit state passing, and the external collaborators (the AST mutation
tool, the rustc process, the complexity scorer, `random`) are abstracted as
function parameters, constrained only by hypotheses matching their
documented interfaces.
-/

namespace TraitFuzzer

/-- `CompilationStatus` from `utils/compiler/interface.py`. -/
inductive CompilationStatus
  | SUCCESS
  | ERROR
  | HANG
  | CRASH
  | UNKNOWN
deriving DecidableEq, Repr, Fintype

open CompilationStatus

/-- The severity order used both by `_rank` in `worker_main` and by the
`order` dict in `_is_seed_fate`: CRASH > HANG > ERROR > SUCCESS > UNKNOWN. -/
def rank : CompilationStatus → Nat
  | CRASH => 4
  | HANG => 3
  | ERROR => 2
  | SUCCESS => 1
  | UNKNOWN => 0

/-- `status.value.lower()`: the lowercase category-directory name of a status. -/
def statusValueLower : CompilationStatus → String
  | SUCCESS => "success"
  | ERROR => "error"
  | HANG => "hang"
  | CRASH => "crash"
  | UNKNOWN => "unknown"

/-- The overall mutant status computed in `worker_main`: start from the
stable result and replace it by the nightly / next-solver result whenever
that result ranks strictly higher. -/
def overallStatus (rStable : CompilationStatus)
    (rNightly rNext : Option CompilationStatus) : CompilationStatus :=
  let r1 := match rNightly with
    | some s => if rank s > rank rStable then s else rStable
    | none => rStable
  match rNext with
  | some s => if rank s > rank r1 then s else r1
  | none => r1

/-- The list of per-configuration statuses that were actually run
(stable always; nightly and next-solver when enabled). -/
def runStatuses (rStable : CompilationStatus)
    (rNightly rNext : Option CompilationStatus) : List CompilationStatus :=
  rStable :: (rNightly.toList ++ rNext.toList)

/-! ## Compiler adapter (`RustCompiler.compile`) -/

/-- Python's `pat in s` substring test, for a non-empty pattern:
`s.splitOn pat` has at least two pieces exactly when `pat` occurs in `s`. -/
def occursIn (pat s : String) : Bool :=
  (s.splitOn pat).length ≥ 2

/-- An ASCII single quote, kept out of the source text as an escape. -/
def squote : String := "\x27"

/-- The second ICE marker scanned for in `RustCompiler.compile`. -/
def panickedMarker : String := "thread " ++ squote ++ "rustc" ++ squote ++ " panicked"

/-- The ICE detection of `RustCompiler.compile`: either marker occurs in the
lowercased stderr. -/
def crashMarker (stderr : String) : Bool :=
  occursIn "internal compiler error" stderr.toLower ||
    occursIn panickedMarker stderr.toLower

/-- Status classification of `RustCompiler.compile` on the path where the
subprocess ran to completion (no timeout, no spawn failure): SUCCESS on exit
code 0 else ERROR, then overridden to CRASH when an ICE marker appears in
stderr. -/
def compileStatus (returncode : Int) (stderr : String) : CompilationStatus :=
  let status := if returncode = 0 then SUCCESS else ERROR
  if crashMarker stderr then CRASH else status

/-! ## Differential oracle classification (`worker_main`) -/

/-- The fold of `_is_seed_fate` over the baseline result dict: track the
worst-ranked status, starting from `None`. -/
def worstStatus (l : List CompilationStatus) : Option CompilationStatus :=
  l.foldl
    (fun w st =>
      match w with
      | none => some st
      | some w0 => if rank st > rank w0 then some st else some w0)
    none

/-- `_is_seed_fate`: the unmutated baseline is "fate" when its worst-ranked
status across the enabled configurations is CRASH or HANG. -/
def isSeedFate (baseline : List CompilationStatus) : Bool :=
  match worstStatus baseline with
  | some CRASH => true
  | some HANG => true
  | _ => false

/-- `_is_seed_miscompilation`: the baseline miscompiles when detection is on,
both the nightly and next-solver configurations are enabled and present, and
their statuses are each SUCCESS-or-ERROR yet differ. -/
def isSeedMiscompilation (detect enableNightly enableNext : Bool)
    (bNightly bNext : Option CompilationStatus) : Bool :=
  if !detect then false
  else if !(enableNightly && enableNext) then false
  else
    match bNightly, bNext with
    | some nst, some xst =>
        (nst == SUCCESS || nst == ERROR) && (xst == SUCCESS || xst == ERROR)
          && nst != xst
    | _, _ => false

/-- The mutant-level miscompilation test of `worker_main`: detection enabled,
both extra configurations enabled and their results present, both statuses
SUCCESS-or-ERROR, and the two statuses differ. -/
def mutantMiscompFlag (detect enableNightly enableNext : Bool)
    (rNightly rNext : Option CompilationStatus) : Bool :=
  if detect && enableNightly && enableNext then
    match rNightly, rNext with
    | some nst, some xst =>
        (nst == SUCCESS || nst == ERROR) && (xst == SUCCESS || xst == ERROR)
          && nst != xst
    | _, _ => false
  else false

/-- Outcome of the categorize-and-persist block of `worker_main` for one
mutant (status name, persistence decision, miscompilation flag, the
halt/ban control flags, and the category directories written to). -/
structure Classification where
  statusName : String
  shouldPersist : Bool
  miscompilation : Bool
  skipRemainingRounds : Bool
  banFamily : Bool
  killFateNow : Bool
  destStatuses : List String
deriving Repr, DecidableEq

/-- The categorize-and-persist block of `worker_main` (steps 4 of the inner
loop): overall status, SUCCESS-persistence opt-out, miscompilation flag,
fate relabelling against the baseline, and the CRASH/HANG "kill fate"
policy. `seedFate` and `seedMis` are the (cached) values of
`_is_seed_fate()` / `_is_seed_miscompilation()`. -/
def classifyMutant (detect enableNightly enableNext : Bool)
    (keepSuccessCases : Int) (rStable : CompilationStatus)
    (rNightly rNext : Option CompilationStatus)
    (seedFate seedMis : Bool) : Classification :=
  let result := overallStatus rStable rNightly rNext
  let statusName := statusValueLower result
  let shouldPersist := !(result == SUCCESS && keepSuccessCases == 0)
  let mis := mutantMiscompFlag detect enableNightly enableNext rNightly rNext
  -- If the baseline already miscompiles, classify as fate.
  let relabel := mis && seedMis
  let statusName := if relabel then "fate" else statusName
  let shouldPersist := if relabel then true else shouldPersist
  let mis := if relabel then false else mis
  -- CRASH/HANG: halt this seed, ban the family, and relabel "fate" when the
  -- baseline already CRASH/HANGs.
  let crashOrHang := shouldPersist && (result == CRASH || result == HANG)
  let statusName := if crashOrHang && seedFate then "fate" else statusName
  let dest :=
    (if shouldPersist then [statusName] else [])
      ++ (if mis then ["miscompilation"] else [])
  { statusName := statusName
    shouldPersist := shouldPersist
    miscompilation := mis
    skipRemainingRounds := crashOrHang
    banFamily := crashOrHang
    killFateNow := crashOrHang
    destStatuses := dest }

/-! ## Theorems: C1, C2, C7 and C10 -/

/-- C1: when a mutant's overall status is CRASH or HANG, the seed's family
is banned and mutation of the seed halts immediately (both the inner
attempt loop and the remaining rounds), whatever the baseline did; and when
in addition the baseline's worst-ranked status across the enabled
configurations is already CRASH or HANG, the mutant is classified "fate". -/
theorem crash_hang_bans_and_halts (detect enableNightly enableNext : Bool)
    (keepSuccessCases : Int) (rStable : CompilationStatus)
    (rNightly rNext : Option CompilationStatus)
    (bStable : CompilationStatus) (bNightly bNext : Option CompilationStatus)
    (seedMis : Bool)
    (h : overallStatus rStable rNightly rNext = CRASH ∨
      overallStatus rStable rNightly rNext = HANG) :
    (classifyMutant detect enableNightly enableNext keepSuccessCases rStable
        rNightly rNext (isSeedFate (runStatuses bStable bNightly bNext))
        seedMis).banFamily = true ∧
    (classifyMutant detect enableNightly enableNext keepSuccessCases rStable
        rNightly rNext (isSeedFate (runStatuses bStable bNightly bNext))
        seedMis).killFateNow = true ∧
    (classifyMutant detect enableNightly enableNext keepSuccessCases rStable
        rNightly rNext (isSeedFate (runStatuses bStable bNightly bNext))
        seedMis).skipRemainingRounds = true ∧
    (isSeedFate (runStatuses bStable bNightly bNext) = true →
      (classifyMutant detect enableNightly enableNext keepSuccessCases rStable
          rNightly rNext (isSeedFate (runStatuses bStable bNightly bNext))
          seedMis).statusName = "fate") := by
  cases hf : isSeedFate (runStatuses bStable bNightly bNext) <;>
    cases hm : mutantMiscompFlag detect enableNightly enableNext rNightly rNext <;>
    cases seedMis <;>
    rcases h with h | h <;>
    simp [classifyMutant, h, hm]

/-- Witness for C1 at a concrete input: a stable CRASH whose baseline
already HANGs is labelled "fate", banned and halted. -/
theorem crash_hang_bans_and_halts_witness :
    (classifyMutant true true true 7 CRASH none none
        (isSeedFate (runStatuses HANG none none)) false).banFamily = true ∧
    (classifyMutant true true true 7 CRASH none none
        (isSeedFate (runStatuses HANG none none)) false).killFateNow = true ∧
    (classifyMutant true true true 7 CRASH none none
        (isSeedFate (runStatuses HANG none none)) false).skipRemainingRounds
        = true ∧
    (isSeedFate (runStatuses HANG none none) = true →
      (classifyMutant true true true 7 CRASH none none
          (isSeedFate (runStatuses HANG none none)) false).statusName
          = "fate") :=
  crash_hang_bans_and_halts true true true 7 CRASH none none HANG none none
    false (Or.inl rfl)

/-- Helper: the miscompilation field of a classification is the mutant-level
flag, suppressed when the baseline already miscompiles. -/
lemma classify_miscomp_eq (detect enableNightly enableNext : Bool)
    (keepSuccessCases : Int) (rStable : CompilationStatus)
    (rNightly rNext : Option CompilationStatus) (seedFate seedMis : Bool) :
    (classifyMutant detect enableNightly enableNext keepSuccessCases rStable
        rNightly rNext seedFate seedMis).miscompilation =
      (mutantMiscompFlag detect enableNightly enableNext rNightly rNext
        && !seedMis) := by
  cases hm : mutantMiscompFlag detect enableNightly enableNext rNightly rNext <;>
    cases seedMis <;> simp [classifyMutant, hm]

/-- Helper: a mutant-level disagreement over an already-disagreeing baseline
is relabelled "fate". -/
lemma classify_statusName_relabel (detect enableNightly enableNext : Bool)
    (keepSuccessCases : Int) (rStable : CompilationStatus)
    (rNightly rNext : Option CompilationStatus) (seedFate seedMis : Bool)
    (hm : mutantMiscompFlag detect enableNightly enableNext rNightly rNext
      = true)
    (hsm : seedMis = true) :
    (classifyMutant detect enableNightly enableNext keepSuccessCases rStable
        rNightly rNext seedFate seedMis).statusName = "fate" := by
  simp [classifyMutant, hm, hsm]

/-- Helper: propositional reading of the mutant-level miscompilation flag. -/
lemma mutantMiscompFlag_iff (n x : CompilationStatus) :
    mutantMiscompFlag true true true (some n) (some x) = true ↔
      ((n = SUCCESS ∨ n = ERROR) ∧ (x = SUCCESS ∨ x = ERROR) ∧ n ≠ x) := by
  revert n x; decide

/-- Helper: propositional reading of `_is_seed_miscompilation`. -/
lemma isSeedMiscompilation_iff (bn bx : CompilationStatus) :
    isSeedMiscompilation true true true (some bn) (some bx) = true ↔
      ((bn = SUCCESS ∨ bn = ERROR) ∧ (bx = SUCCESS ∨ bx = ERROR) ∧ bn ≠ bx)
      := by
  revert bn bx; decide

/-- C2: with miscompilation detection on and both extra configurations run,
a mutant is flagged as a miscompilation exactly when the nightly and
next-solver statuses are each SUCCESS-or-ERROR and differ while the baseline
does not itself miscompile; and when the baseline does, the disagreeing
mutant is relabelled "fate" and not flagged. -/
theorem miscompilation_flag_exact (keepSuccessCases : Int)
    (rStable : CompilationStatus) (n x bn bx : CompilationStatus)
    (seedFate : Bool) :
    ((classifyMutant true true true keepSuccessCases rStable (some n) (some x)
        seedFate
        (isSeedMiscompilation true true true (some bn) (some bx))
        ).miscompilation = true ↔
      ((n = SUCCESS ∨ n = ERROR) ∧ (x = SUCCESS ∨ x = ERROR) ∧ n ≠ x ∧
        ¬((bn = SUCCESS ∨ bn = ERROR) ∧ (bx = SUCCESS ∨ bx = ERROR) ∧
          bn ≠ bx))) ∧
    (((n = SUCCESS ∨ n = ERROR) ∧ (x = SUCCESS ∨ x = ERROR) ∧ n ≠ x ∧
        ((bn = SUCCESS ∨ bn = ERROR) ∧ (bx = SUCCESS ∨ bx = ERROR) ∧
          bn ≠ bx)) →
      (classifyMutant true true true keepSuccessCases rStable (some n) (some x)
          seedFate
          (isSeedMiscompilation true true true (some bn) (some bx))
          ).statusName = "fate" ∧
      (classifyMutant true true true keepSuccessCases rStable (some n) (some x)
          seedFate
          (isSeedMiscompilation true true true (some bn) (some bx))
          ).miscompilation = false) := by
  constructor
  · rw [classify_miscomp_eq]
    simp only [Bool.and_eq_true, Bool.not_eq_true', Bool.eq_false_iff,
      mutantMiscompFlag_iff]
    rw [not_congr (isSeedMiscompilation_iff bn bx).symm]
    tauto
  · rintro ⟨hn, hx, hne, hb⟩
    have hm : mutantMiscompFlag true true true (some n) (some x) = true :=
      (mutantMiscompFlag_iff n x).mpr ⟨hn, hx, hne⟩
    have hs : isSeedMiscompilation true true true (some bn) (some bx) = true :=
      (isSeedMiscompilation_iff bn bx).mpr hb
    refine ⟨classify_statusName_relabel _ _ _ _ _ _ _ _ _ hm hs, ?_⟩
    rw [classify_miscomp_eq, hs]
    simp

/-- Witness for C2: nightly SUCCESS vs next-solver ERROR on a clean
baseline (both SUCCESS) is flagged as a miscompilation. -/
theorem miscompilation_flag_exact_witness :
    ((classifyMutant true true true 7 SUCCESS (some SUCCESS) (some ERROR)
        false
        (isSeedMiscompilation true true true (some SUCCESS) (some SUCCESS))
        ).miscompilation = true ↔
      ((SUCCESS = SUCCESS ∨ SUCCESS = ERROR) ∧
        (ERROR = SUCCESS ∨ ERROR = ERROR) ∧ SUCCESS ≠ ERROR ∧
        ¬((SUCCESS = SUCCESS ∨ SUCCESS = ERROR) ∧
          (SUCCESS = SUCCESS ∨ SUCCESS = ERROR) ∧ SUCCESS ≠ SUCCESS))) ∧
    (((SUCCESS = SUCCESS ∨ SUCCESS = ERROR) ∧
        (ERROR = SUCCESS ∨ ERROR = ERROR) ∧ SUCCESS ≠ ERROR ∧
        ((SUCCESS = SUCCESS ∨ SUCCESS = ERROR) ∧
          (SUCCESS = SUCCESS ∨ SUCCESS = ERROR) ∧ SUCCESS ≠ SUCCESS)) →
      (classifyMutant true true true 7 SUCCESS (some SUCCESS) (some ERROR)
          false
          (isSeedMiscompilation true true true (some SUCCESS) (some SUCCESS))
          ).statusName = "fate" ∧
      (classifyMutant true true true 7 SUCCESS (some SUCCESS) (some ERROR)
          false
          (isSeedMiscompilation true true true (some SUCCESS) (some SUCCESS))
          ).miscompilation = false) :=
  miscompilation_flag_exact 7 SUCCESS SUCCESS ERROR SUCCESS SUCCESS false

/-! ## Seed selector (`SeedSelector`)

Seeds are modelled by their (absolute) path strings. Mutable selector state
becomes explicit state passing; `random.random`, `random.choice` /
`random.choices` and the on-disk existence check are abstracted as
parameters, the chooser being constrained only by "it returns an element of
the candidate list it is given". -/

/-- `Path.stem`: final path component minus its last extension. -/
def pathStem (path : String) : String :=
  let name := (path.splitOn "/").getLastD path
  let parts := name.splitOn "."
  match parts with
  | [] => name
  | [_] => name
  | "" :: [_] => name
  | _ => String.intercalate "." parts.dropLast

/-- `_infer_family_from_seed`: the part of the stem after the first
`__fam__` marker when present, else the seed's own (absolute) path. -/
def inferFamilyFromSeed (path : String) : String :=
  let stem := pathStem path
  let pieces := stem.splitOn "__fam__"
  if pieces.length ≥ 2 then String.intercalate "__fam__" (pieces.drop 1)
  else path

/-- Association-list deletion, modelling `dict.pop(key, None)`. -/
def removeKey {α : Type} (m : List (String × α)) (k : String) :
    List (String × α) :=
  m.filter (fun p => !(p.1 == k))

/-- The per-worker `SeedSelector` state: corpus, promoted subset, score
cache, pick bookkeeping, recency windows, family map and the banned-family
set, plus the (sanitized) configuration knobs select consults. -/
structure SelectorState where
  seeds : List String
  promotedSeeds : List String
  scores : List (String × Int)
  pickCounts : List (String × Nat)
  recent : List String
  familyPickCounts : List (String × Nat)
  familyRecent : List String
  seedFamily : List (String × String)
  bannedFamilies : List String
  maxPicksPerSeed : Option Int
  repeatWindow : Nat
  familyRepeatWindow : Nat
  pickRetryLimit : Nat
deriving Repr

/-- `_family_key`: the cached family of a seed, else the inferred one.
(The code also writes the inferred value back into `_seed_family`; the
cached value always equals `inferFamilyFromSeed`, so lookups through this
pure function agree with the code.) -/
def familyKey (st : SelectorState) (seed : String) : String :=
  (st.seedFamily.lookup seed).getD (inferFamilyFromSeed seed)

/-- `ban_family`: insert into the banned set; `None` is ignored. Nothing
ever removes an entry. -/
def banFamily (st : SelectorState) (family : Option String) : SelectorState :=
  match family with
  | none => st
  | some f => { st with bannedFamilies := f :: st.bannedFamilies }

/-- `_eligible_seeds`: drop seeds of banned families, then apply the
per-seed pick budget when one is configured. -/
def eligibleSeeds (st : SelectorState) : List String :=
  if st.seeds.isEmpty then []
  else
    let eligible := st.seeds.filter
      (fun s => !(st.bannedFamilies.contains (familyKey st s)))
    if eligible.isEmpty then []
    else
      match st.maxPicksPerSeed with
      | none => eligible
      | some mp =>
        if 0 ≤ mp then
          eligible.filter
            (fun s => (((st.pickCounts.lookup s).getD 0 : Nat) : Int) < mp)
        else eligible

/-- `_choose_pool_candidates`: prefer the promoted pool on a `wantPromoted`
coin flip, else the base pool, falling back to whichever is non-empty. -/
def choosePoolCandidates (st : SelectorState) (wantPromoted : Bool)
    (eligible : List String) : List String :=
  if eligible.isEmpty then eligible
  else
    let promoted := eligible.filter (fun s => st.promotedSeeds.contains s)
    let base := eligible.filter (fun s => !(st.promotedSeeds.contains s))
    if wantPromoted && !promoted.isEmpty then promoted
    else if !base.isEmpty then base
    else promoted

/-- The seed-level half of `_candidates_within_window`: filter out recently
picked seeds, relaxing when that empties the list. -/
def notRecentSeeds (st : SelectorState) (eligible : List String) :
    List String :=
  if st.repeatWindow = 0 || eligible.length ≤ 1 then eligible
  else
    let c := eligible.filter (fun s => !(st.recent.contains s))
    if c.isEmpty then eligible else c

/-- `_candidates_within_window`: the seed-level recency filter followed by
the family-level one, each with the same relaxation rule. -/
def candidatesWithinWindow (st : SelectorState) (eligible : List String) :
    List String :=
  let seedCands := notRecentSeeds st eligible
  if st.familyRepeatWindow = 0 || seedCands.length ≤ 1 then seedCands
  else
    let fc := seedCands.filter
      (fun s => !(st.familyRecent.contains (familyKey st s)))
    if fc.isEmpty then seedCands else fc

/-- `_record_pick`: bump the seed and family pick counters and append to
the bounded recency deques (dropping from the front at capacity). -/
def recordPick (st : SelectorState) (seed : String) : SelectorState :=
  let famKey := familyKey st seed
  { st with
    pickCounts :=
      (seed, (st.pickCounts.lookup seed).getD 0 + 1)
        :: removeKey st.pickCounts seed
    recent :=
      if st.repeatWindow > 0 then
        let r := st.recent ++ [seed]
        r.drop (r.length - st.repeatWindow)
      else st.recent
    familyPickCounts :=
      (famKey, (st.familyPickCounts.lookup famKey).getD 0 + 1)
        :: removeKey st.familyPickCounts famKey
    familyRecent :=
      if st.familyRepeatWindow > 0 then
        let r := st.familyRecent ++ [famKey]
        r.drop (r.length - st.familyRepeatWindow)
      else st.familyRecent
    seedFamily :=
      match st.seedFamily.lookup seed with
      | some _ => st.seedFamily
      | none => (seed, inferFamilyFromSeed seed) :: st.seedFamily }

/-- `remove_seed`: drop the seed from the corpus and from every per-seed
structure, and best-effort clean up its family bookkeeping. A seed not in
the corpus is a no-op (`ValueError` branch). -/
def removeSeed (st : SelectorState) (seed : String) : SelectorState :=
  if st.seeds.contains seed then
    let family := (st.seedFamily.lookup seed).getD (inferFamilyFromSeed seed)
    { st with
      seeds := st.seeds.erase seed
      scores := removeKey st.scores seed
      promotedSeeds := st.promotedSeeds.filter (fun p => !(p == seed))
      pickCounts := removeKey st.pickCounts seed
      seedFamily := removeKey st.seedFamily seed
      recent :=
        if st.repeatWindow > 0 then
          st.recent.filter (fun s => !(s == seed))
        else st.recent
      familyPickCounts := removeKey st.familyPickCounts family
      familyRecent :=
        if st.familyRepeatWindow > 0 then
          st.familyRecent.filter (fun g => !(g == family))
        else st.familyRecent }
  else st

/-- `add_seed`: register a new seed. `validRs` models the
exists/is-file/`.rs`-suffix check, `internalOnly` the internal-only-seed
filter, `isPromoted` the `seeds/<prefix><digits>/` location test and
`updateScore`/`score` the incremental `_score_one` call when scoring has
already been initialized. -/
def addSeed (st : SelectorState) (seed : String) (familyId : Option String)
    (validRs internalOnly isPromoted updateScore : Bool) (score : Int) :
    SelectorState :=
  if !validRs then st
  else if st.seeds.contains seed then st
  else if internalOnly then st
  else
    { st with
      seeds := st.seeds ++ [seed]
      promotedSeeds :=
        if isPromoted then seed :: st.promotedSeeds else st.promotedSeeds
      seedFamily :=
        (seed,
          match familyId with
          | some f => f
          | none => inferFamilyFromSeed seed) :: st.seedFamily
      scores :=
        if updateScore then (seed, score) :: removeKey st.scores seed
        else st.scores }

/-- The `_pick_with_retry` loop of `select`: draw from the fixed candidate
list via the chooser oracle `orac` (attempt index, current state,
candidates); a pick that no longer exists on disk is lazily removed from
the pool and the draw retried, up to `seed_pick_retry_limit` attempts. -/
def pickWithRetry (orac : Nat → SelectorState → List String → Option String)
    (existsOnDisk : String → Bool) (candidates : List String) :
    Nat → Nat → SelectorState → Option String × SelectorState
  | 0, _, st => (none, st)
  | fuel + 1, i, st =>
    match orac i st candidates with
    | none => (none, st)
    | some p =>
      if existsOnDisk p then (some p, st)
      else pickWithRetry orac existsOnDisk candidates fuel (i + 1)
        (removeSeed st p)

/-- The body shared by both strategy branches of `select`: compute the
eligible seeds, restrict to the drawn pool and the recency windows, then
pick with retry and record the pick. The weighted (`ttdn_metric`) versus
uniform (`random`) draw lives inside the chooser oracle. -/
def selectCore (orac : Nat → SelectorState → List String → Option String)
    (existsOnDisk : String → Bool) (wantPromoted : Bool)
    (st1 : SelectorState) : Option String × SelectorState :=
  let eligible := eligibleSeeds st1
  if eligible.isEmpty then (none, st1)
  else
    let pool := choosePoolCandidates st1 wantPromoted eligible
    let candidates := candidatesWithinWindow st1 pool
    match pickWithRetry orac existsOnDisk candidates st1.pickRetryLimit 0
      st1 with
    | (none, st2) => (none, st2)
    | (some p, st2) => (some p, recordPick st2 p)

/-- `select`: the `ttdn_metric` strategy first fills the score cache via
`scoreAll` (the external complexity scorer) when empty, then both
strategies run the common candidate-and-pick body. -/
def select (strategy : String)
    (orac : Nat → SelectorState → List String → Option String)
    (existsOnDisk : String → Bool) (wantPromoted : Bool)
    (scoreAll : List String → List (String × Int)) (st : SelectorState) :
    Option String × SelectorState :=
  if st.seeds.isEmpty then (none, st)
  else
    let st1 :=
      if strategy == "ttdn_metric" && st.scores.isEmpty then
        { st with scores := scoreAll st.seeds }
      else st
    selectCore orac existsOnDisk wantPromoted st1

/-! ## Retention manager (`enforce_results_limits` and helpers)

A case directory is modelled by its name, its modification time and its
recursive byte size; the results tree by one list of case directories per
status category. Deletions always succeed in the model (the code treats a
failing `rmtree` as a benign race). -/

/-- One `case_*` directory under a status category. -/
structure CaseDir where
  name : String
  mtime : Nat
  size : Nat
deriving DecidableEq, Repr

/-- Ordering by modification time, the sort key of `_sort_oldest_first`. -/
def mtimeLE (a b : CaseDir) : Prop := a.mtime ≤ b.mtime

instance : DecidableRel mtimeLE := fun a b => Nat.decLe a.mtime b.mtime

instance : IsTotal CaseDir mtimeLE := ⟨fun a b => Nat.le_total a.mtime b.mtime⟩

instance : IsTrans CaseDir mtimeLE := ⟨fun _ _ _ => Nat.le_trans⟩

/-- `_sort_oldest_first`: Python's `sorted` is a stable sort on the mtime
key, so it coincides with insertion sort by `mtimeLE` (a stable sort's
output is unique). Every path is assumed to exist (the `now` fallback
covers a racy delete, absent in the model). -/
def sortOldestFirst (dirs : List CaseDir) : List CaseDir :=
  List.insertionSort mtimeLE dirs

/-- The `while len > max_keep: pop front and delete` loop shared by
`_prune_oldest` and the global count cap, with Python's signed comparison. -/
def dropToKeepInt {α : Type} (maxKeep : Int) : List α → List α
  | [] => []
  | a :: t =>
    if ((a :: t).length : Int) > maxKeep then dropToKeepInt maxKeep t
    else a :: t

/-- `_prune_oldest`: no-op on a negative keep limit, else sort oldest-first
and delete from the front down to `max_keep` entries. -/
def pruneOldest (caseDirs : List CaseDir) (maxKeep : Int) : List CaseDir :=
  if maxKeep < 0 then caseDirs
  else dropToKeepInt maxKeep (sortOldestFirst caseDirs)

/-- `int(keep * 0.9)` with the 0.90 watermark, then `min(target, keep)` as
in `enforce_results_limits`. Python evaluates `keep * 0.9` in binary
floating point, where the double nearest 0.9 slightly exceeds 9/10; the
truncation `int(...)` nevertheless equals `9 * keep / 10` for every
realistic keep count, so the model uses exact arithmetic. -/
def pruneTarget (keep : Nat) : Nat :=
  min (9 * keep / 10) keep

/-- The per-category retention step of `enforce_results_limits`: when the
category exceeds a non-negative keep limit, prune it oldest-first down to
the watermark target. -/
def enforceCategoryLimit (dirs : List CaseDir) (keep : Int) : List CaseDir :=
  if 0 ≤ keep then
    if (dirs.length : Int) > keep then
      pruneOldest dirs (pruneTarget keep.toNat : Int)
    else dirs
  else dirs

/-- The per-status-category contents of the results directory. -/
structure ResultsState where
  success : List CaseDir
  error : List CaseDir
  hang : List CaseDir
  crash : List CaseDir
  fate : List CaseDir
  miscompilation : List CaseDir
deriving Repr, DecidableEq

/-- Step 1 of `enforce_results_limits`: per-category retention for the three
prunable categories (success, error, fate). -/
def perCategoryPrune (keepSuccess keepError keepFate : Int)
    (st : ResultsState) : ResultsState :=
  { st with
    success := enforceCategoryLimit st.success keepSuccess
    error := enforceCategoryLimit st.error keepError
    fate := enforceCategoryLimit st.fate keepFate }

/-- `int(mc * 0.9)`: truncating multiplication by the watermark, as exact
integer arithmetic (Python truncates toward zero; `Int.tdiv` matches). -/
def watermarkInt (mc : Int) : Int :=
  Int.tdiv (9 * mc) 10

/-- Step 2 of `enforce_results_limits`: the global case-count cap over
success+error combined. Deleted directories disappear from their
categories; all other categories are left alone. -/
def globalCountCap (maxCases : Option Int) (st : ResultsState) :
    ResultsState :=
  match maxCases with
  | none => st
  | some mc =>
    let prunable := sortOldestFirst (st.success ++ st.error)
    let target : Int :=
      if (prunable.length : Int) > mc then min (watermarkInt mc) mc else mc
    let survivors := dropToKeepInt target prunable
    { st with
      success := st.success.filter (fun d => survivors.contains d)
      error := st.error.filter (fun d => survivors.contains d) }

/-- The byte-cap loop of `enforce_results_limits`: delete oldest-first while
directories remain and the running success+error byte total exceeds the
target, clamping the total at zero as the code does. -/
def byteCapLoop (target : Int) : List CaseDir → Int → List CaseDir
  | [], _ => []
  | a :: t, size =>
    if size > target then byteCapLoop target t (max 0 (size - a.size))
    else a :: t

/-- Total recursive byte size of a category (`_dir_size_bytes` summed). -/
def sumSizes (dirs : List CaseDir) : Int :=
  dirs.foldl (fun acc d => acc + (d.size : Int)) 0

/-- Step 3 of `enforce_results_limits`: the global byte-size cap, measured
and pruned only within the success and error folders. `maxResultsBytes` is
the precomputed `int(max_results_gb * 1024**3)`. -/
def globalByteCap (maxResultsBytes : Option Int) (st : ResultsState) :
    ResultsState :=
  match maxResultsBytes with
  | none => st
  | some mb =>
    let prunableSize := sumSizes st.success + sumSizes st.error
    let prunable := sortOldestFirst (st.success ++ st.error)
    let targetBytes : Int :=
      if prunableSize > mb then min (watermarkInt mb) mb else mb
    let survivors := byteCapLoop targetBytes prunable prunableSize
    { st with
      success := st.success.filter (fun d => survivors.contains d)
      error := st.error.filter (fun d => survivors.contains d) }

/-- `enforce_results_limits`: per-category retention, then the global count
cap, then the global byte cap, then the free-disk guard deciding whether
the campaign may continue. (The LLM rewrite-file cap lives outside the
results tree and is omitted.) -/
def enforceResultsLimits (maxCases maxResultsBytes minFreeBytes : Option Int)
    (freeBytes : Int) (keepSuccess keepError keepFate : Int)
    (st : ResultsState) : ResultsState × Bool :=
  let st1 := perCategoryPrune keepSuccess keepError keepFate st
  let st2 := globalCountCap maxCases st1
  let st3 := globalByteCap maxResultsBytes st2
  let ok := match minFreeBytes with
    | none => true
    | some m => !(freeBytes < m)
  (st3, ok)

/-! ## Promotion (`pick_next_new_seed_dir`, `maybe_roll_promoted_dir`,
and the promotion block of `worker_main`) -/

/-- The `max_n` loop of `pick_next_new_seed_dir`: the largest numeric suffix
among directories named `<prefix><digits>`, starting from 0. -/
def maxPromotedSuffix (dirNames : List String) (pre : String) : Nat :=
  dirNames.foldl
    (fun maxN name =>
      if name.startsWith pre then
        let suffix := name.drop pre.length
        if suffix.length > 0 && suffix.all Char.isDigit then
          max maxN (suffix.toNat!)
        else maxN
      else maxN)
    0

/-- `pick_next_new_seed_dir`: create `<prefix><max_n + 1>`. -/
def pickNextNewSeedDir (dirNames : List String) (pre : String) : String :=
  pre ++ toString (maxPromotedSuffix dirNames pre + 1)

/-- `maybe_roll_promoted_dir`: keep the current promoted directory unless
its `.rs` file count has reached `max_files`, in which case roll to the
next `<prefix>N` directory. -/
def maybeRollPromotedDir (currentName : String) (currentFiles : Nat)
    (dirNames : List String) (pre : String) (maxFiles : Int) : String :=
  if maxFiles ≤ 0 then currentName
  else if (currentFiles : Int) ≥ maxFiles then pickNextNewSeedDir dirNames pre
  else currentName

/-- One promotion opportunity as seen by the promotion block of
`worker_main`: the directory listing and current-directory fill level at
that moment, and whether this mutant is promotion-eligible (promotion
enabled, strategy `constraint_injection`, status SUCCESS). -/
structure PromotionEvent where
  eligible : Bool
  currentDir : String
  currentFiles : Nat
  dirNames : List String
deriving Repr

/-- The promotion block of `worker_main` for one mutant: skip unless
eligible; raise-and-skip when the cap is non-positive; skip when the parent
has reached the cap; otherwise roll the directory if full, write, and count
the promotion. Returns (directory written to, if any; updated counter). -/
def promoteStep (maxPromotionsPerSeed : Int) (pre : String)
    (newSeedsMax : Int) (promotedSoFar : Int) (ev : PromotionEvent) :
    Option String × Int :=
  if !ev.eligible then (none, promotedSoFar)
  else if maxPromotionsPerSeed ≤ 0 then (none, promotedSoFar)
  else if promotedSoFar ≥ maxPromotionsPerSeed then (none, promotedSoFar)
  else
    let dir := maybeRollPromotedDir ev.currentDir ev.currentFiles ev.dirNames
      pre newSeedsMax
    (some dir, promotedSoFar + 1)

/-- Folding `promoteStep` over a run's successive promotion opportunities
for one parent seed, collecting the directories written to. -/
def runPromotions (maxPromotionsPerSeed : Int) (pre : String)
    (newSeedsMax : Int) (promotedSoFar : Int) :
    List PromotionEvent → List (Option String)
  | [] => []
  | ev :: rest =>
    let (written, count) :=
      promoteStep maxPromotionsPerSeed pre newSeedsMax promotedSoFar ev
    written :: runPromotions maxPromotionsPerSeed pre newSeedsMax count rest

/-! ## Theorems: C3 -/

/-- Helper: an eligible seed's family is not in the banned set. -/
lemma mem_eligible_banned {st : SelectorState} {s : String}
    (h : s ∈ eligibleSeeds st) :
    st.bannedFamilies.contains (familyKey st s) = false := by
  simp only [eligibleSeeds] at h
  split at h
  · exact absurd h (List.not_mem_nil s)
  · split at h
    · exact absurd h (List.not_mem_nil s)
    · split at h
      · have := (List.mem_filter.mp h).2
        simpa using this
      · split at h
        · have := (List.mem_filter.mp ((List.mem_filter.mp h).1)).2
          simpa using this
        · have := (List.mem_filter.mp h).2
          simpa using this

/-- Helper: the seed-level recency filter only narrows the list. -/
lemma mem_of_notRecent {st : SelectorState} {l : List String} {x : String}
    (h : x ∈ notRecentSeeds st l) : x ∈ l := by
  simp only [notRecentSeeds] at h
  split at h
  · exact h
  · split at h
    · exact h
    · exact (List.mem_filter.mp h).1

/-- Helper: the recency windows only narrow the candidate list. -/
lemma mem_of_window {st : SelectorState} {l : List String} {x : String}
    (h : x ∈ candidatesWithinWindow st l) : x ∈ l := by
  simp only [candidatesWithinWindow] at h
  split at h
  · exact mem_of_notRecent h
  · split at h
    · exact mem_of_notRecent h
    · exact mem_of_notRecent (List.mem_filter.mp h).1

/-- Helper: the promoted/base pool split only narrows the list. -/
lemma mem_of_pool {st : SelectorState} {w : Bool} {l : List String}
    {x : String} (h : x ∈ choosePoolCandidates st w l) : x ∈ l := by
  simp only [choosePoolCandidates] at h
  split at h
  · exact h
  · split at h
    · exact (List.mem_filter.mp h).1
    · split at h
      · exact (List.mem_filter.mp h).1
      · exact (List.mem_filter.mp h).1

/-- Helper: `remove_seed` never touches the banned-family set. -/
lemma removeSeed_banned (st : SelectorState) (s : String) :
    (removeSeed st s).bannedFamilies = st.bannedFamilies := by
  unfold removeSeed
  split <;> rfl

/-- Helper: `_record_pick` never touches the banned-family set. -/
lemma recordPick_banned (st : SelectorState) (s : String) :
    (recordPick st s).bannedFamilies = st.bannedFamilies := rfl

/-- Helper: the retry loop's result seed is one of the candidates. -/
lemma pickWithRetry_mem
    (orac : Nat → SelectorState → List String → Option String)
    (existsOnDisk : String → Bool) (cands : List String)
    (horac : ∀ i s l x, orac i s l = some x → x ∈ l) :
    ∀ (fuel i : Nat) (st : SelectorState) (r : String)
      (st2 : SelectorState),
      pickWithRetry orac existsOnDisk cands fuel i st = (some r, st2) →
        r ∈ cands := by
  intro fuel
  induction fuel with
  | zero =>
    intro i st r st2 h
    exact absurd h (by simp [pickWithRetry])
  | succ n ih =>
    intro i st r st2 h
    simp only [pickWithRetry] at h
    split at h
    · simp at h
    · rename_i p horc
      split at h
      · injection h with h1 h2
        injection h1 with h1
        subst h1
        exact horac i st cands p horc
      · exact ih (i + 1) (removeSeed st p) r st2 h

/-- Helper: the retry loop never touches the banned-family set. -/
lemma pickWithRetry_banned
    (orac : Nat → SelectorState → List String → Option String)
    (existsOnDisk : String → Bool) (cands : List String) :
    ∀ (fuel i : Nat) (st : SelectorState),
      (pickWithRetry orac existsOnDisk cands fuel i st).2.bannedFamilies
        = st.bannedFamilies := by
  intro fuel
  induction fuel with
  | zero => intro i st; rfl
  | succ n ih =>
    intro i st
    simp only [pickWithRetry]
    split
    · rfl
    · split
      · rfl
      · rename_i p _ _
        rw [ih (i + 1) (removeSeed st p), removeSeed_banned]

/-- Helper: a seed returned by the common select body is eligible, so its
family is not banned. -/
lemma selectCore_not_banned
    {orac : Nat → SelectorState → List String → Option String}
    {existsOnDisk : String → Bool} {wantPromoted : Bool}
    {st1 : SelectorState} {r : String}
    (horac : ∀ i s l x, orac i s l = some x → x ∈ l)
    (hsel : (selectCore orac existsOnDisk wantPromoted st1).1 = some r) :
    st1.bannedFamilies.contains (familyKey st1 r) = false := by
  simp only [selectCore] at hsel
  split at hsel
  · simp at hsel
  · split at hsel
    · simp at hsel
    · rename_i p st2 heq
      simp only at hsel
      have hp : p = r := by simpa using hsel
      subst hp
      have hmem := pickWithRetry_mem orac existsOnDisk _ horac _ _ _ _ _ heq
      exact mem_eligible_banned (mem_of_pool (mem_of_window hmem))

/-- Helper: the common select body never touches the banned-family set. -/
lemma selectCore_banned
    (orac : Nat → SelectorState → List String → Option String)
    (existsOnDisk : String → Bool) (wantPromoted : Bool)
    (st1 : SelectorState) :
    (selectCore orac existsOnDisk wantPromoted st1).2.bannedFamilies
      = st1.bannedFamilies := by
  simp only [selectCore]
  split
  · rfl
  · split
    · rename_i st2 heq
      have := pickWithRetry_banned orac existsOnDisk
        (candidatesWithinWindow st1
          (choosePoolCandidates st1 wantPromoted (eligibleSeeds st1)))
        st1.pickRetryLimit 0 st1
      rw [heq] at this
      exact this
    · rename_i p st2 heq
      have := pickWithRetry_banned orac existsOnDisk
        (candidatesWithinWindow st1
          (choosePoolCandidates st1 wantPromoted (eligibleSeeds st1)))
        st1.pickRetryLimit 0 st1
      rw [heq] at this
      exact (recordPick_banned st2 p).trans this

/-- Helper: a valid chooser for witnesses — always take the head. -/
lemma headChooserValid :
    ∀ (i : Nat) (s : SelectorState) (l : List String) (x : String),
      (fun (_ : Nat) (_ : SelectorState) (l : List String) => l.head?) i s l
        = some x → x ∈ l := by
  intro i s l x h
  cases l with
  | nil => exact absurd h (by simp)
  | cons b t =>
    simp only [List.head?] at h
    injection h with h1
    subst h1
    exact List.mem_cons_self b t

/-- C3: with a banned family `f`, `select` never returns a seed whose
family key is `f`, for every strategy and chooser; `select` and the other
selector operations leave the banned set untouched (only `ban_family` ever
changes it, by insertion), so the exclusion is permanent for the run. -/
theorem banned_family_never_selected (strategy : String)
    (orac : Nat → SelectorState → List String → Option String)
    (existsOnDisk : String → Bool) (wantPromoted : Bool)
    (scoreAll : List String → List (String × Int)) (st : SelectorState)
    (f sArg : String) (fidArg gArg : Option String)
    (v io ip us : Bool) (scArg : Int)
    (horac : ∀ i s l x, orac i s l = some x → x ∈ l)
    (hf : f ∈ st.bannedFamilies) :
    ((select strategy orac existsOnDisk wantPromoted scoreAll st).1.all
      fun r => !(familyKey st r == f)) = true ∧
    (select strategy orac existsOnDisk wantPromoted scoreAll st
      ).2.bannedFamilies = st.bannedFamilies ∧
    (removeSeed st sArg).bannedFamilies = st.bannedFamilies ∧
    (recordPick st sArg).bannedFamilies = st.bannedFamilies ∧
    (addSeed st sArg fidArg v io ip us scArg).bannedFamilies
      = st.bannedFamilies ∧
    f ∈ (banFamily st gArg).bannedFamilies := by
  have hnotsel : ∀ r,
      (select strategy orac existsOnDisk wantPromoted scoreAll st).1 = some r
        → st.bannedFamilies.contains (familyKey st r) = false := by
    intro r hsel
    simp only [select] at hsel
    split at hsel
    · simp at hsel
    · by_cases hc : (strategy == "ttdn_metric" && st.scores.isEmpty) = true
      · rw [if_pos hc] at hsel
        exact @selectCore_not_banned orac existsOnDisk wantPromoted
          { st with scores := scoreAll st.seeds } r horac hsel
      · rw [if_neg hc] at hsel
        exact selectCore_not_banned horac hsel
  refine ⟨?_, ?_, removeSeed_banned st sArg, recordPick_banned st sArg,
    ?_, ?_⟩
  · cases hres : (select strategy orac existsOnDisk wantPromoted scoreAll
      st).1 with
    | none => rfl
    | some r =>
      have hcontains := hnotsel r hres
      have hne : familyKey st r ≠ f := by
        intro hEq
        rw [hEq] at hcontains
        exact (by simpa using hcontains : ¬f ∈ st.bannedFamilies) hf
      simp [Option.all, hne]
  · simp only [select]
    split
    · rfl
    · by_cases hc : (strategy == "ttdn_metric" && st.scores.isEmpty) = true
      · rw [if_pos hc]
        exact selectCore_banned orac existsOnDisk wantPromoted _
      · rw [if_neg hc]
        exact selectCore_banned orac existsOnDisk wantPromoted st
  · unfold addSeed
    split
    · rfl
    · split
      · rfl
      · split
        · rfl
        · rfl
  · cases gArg with
    | none => exact hf
    | some g => exact List.mem_cons_of_mem g hf

/-- Witness for C3 on a concrete two-seed corpus with family `F` banned:
the head-chooser select avoids the banned seed and the banned set is
preserved by every operation. -/
theorem banned_family_never_selected_witness :
    "F" ∈ (SelectorState.mk ["s1.rs", "bad__fam__F.rs"] [] [] [] [] [] []
      [] ["F"] none 0 0 1).bannedFamilies ∧
    (((select "random"
      (fun (_ : Nat) (_ : SelectorState) (l : List String) => l.head?)
      (fun _ => true) false (fun _ => [])
      (SelectorState.mk ["s1.rs", "bad__fam__F.rs"] [] [] [] [] [] [] []
        ["F"] none 0 0 1)).1.all
      fun r => !(familyKey (SelectorState.mk ["s1.rs", "bad__fam__F.rs"]
        [] [] [] [] [] [] [] ["F"] none 0 0 1) r == "F")) = true ∧
    (select "random"
      (fun (_ : Nat) (_ : SelectorState) (l : List String) => l.head?)
      (fun _ => true) false (fun _ => [])
      (SelectorState.mk ["s1.rs", "bad__fam__F.rs"] [] [] [] [] [] [] []
        ["F"] none 0 0 1)).2.bannedFamilies
      = (SelectorState.mk ["s1.rs", "bad__fam__F.rs"] [] [] [] [] [] [] []
        ["F"] none 0 0 1).bannedFamilies ∧
    (removeSeed (SelectorState.mk ["s1.rs", "bad__fam__F.rs"] [] [] [] []
      [] [] [] ["F"] none 0 0 1) "s1.rs").bannedFamilies
      = (SelectorState.mk ["s1.rs", "bad__fam__F.rs"] [] [] [] [] [] [] []
        ["F"] none 0 0 1).bannedFamilies ∧
    (recordPick (SelectorState.mk ["s1.rs", "bad__fam__F.rs"] [] [] [] []
      [] [] [] ["F"] none 0 0 1) "s1.rs").bannedFamilies
      = (SelectorState.mk ["s1.rs", "bad__fam__F.rs"] [] [] [] [] [] [] []
        ["F"] none 0 0 1).bannedFamilies ∧
    (addSeed (SelectorState.mk ["s1.rs", "bad__fam__F.rs"] [] [] [] [] []
      [] [] ["F"] none 0 0 1) "s2.rs" none true false false false
      3).bannedFamilies
      = (SelectorState.mk ["s1.rs", "bad__fam__F.rs"] [] [] [] [] [] [] []
        ["F"] none 0 0 1).bannedFamilies ∧
    "F" ∈ (banFamily (SelectorState.mk ["s1.rs", "bad__fam__F.rs"] [] []
      [] [] [] [] [] ["F"] none 0 0 1) (some "G")).bannedFamilies) :=
  ⟨by decide,
    banned_family_never_selected "random"
      (fun (_ : Nat) (_ : SelectorState) (l : List String) => l.head?)
      (fun _ => true) false (fun _ => [])
      (SelectorState.mk ["s1.rs", "bad__fam__F.rs"] [] [] [] [] [] [] []
        ["F"] none 0 0 1)
      "F" "s1.rs" none (some "G") true false false false 3
      headChooserValid (by decide)⟩

/-! ## Theorems: C4, C5 and C6 -/

/-- Helper: the pop-front loop keeps the last `k` entries of the list. -/
lemma dropToKeepInt_eq_drop {α : Type} (k : Nat) (l : List α) :
    dropToKeepInt (k : Int) l = l.drop (l.length - k) := by
  induction l with
  | nil => simp [dropToKeepInt]
  | cons a t ih =>
    by_cases h : (((a :: t).length : Nat) : Int) > (k : Int)
    · have hk : k ≤ t.length := by
        simp only [List.length_cons] at h; omega
      rw [dropToKeepInt, if_pos h, ih]
      have h2 : (a :: t).length - k = (t.length - k) + 1 := by
        simp only [List.length_cons]; omega
      rw [h2, List.drop_succ_cons]
    · have hk : t.length + 1 ≤ k := by
        simp only [List.length_cons] at h; omega
      rw [dropToKeepInt, if_neg h]
      have h2 : (a :: t).length - k = 0 := by
        simp only [List.length_cons]; omega
      rw [h2, List.drop_zero]

/-- Helper: the watermark target never exceeds the keep limit. -/
lemma div910_le (K : Nat) : 9 * K / 10 ≤ K := by
  calc 9 * K / 10 ≤ 10 * K / 10 := Nat.div_le_div_right (by omega)
  _ = K := Nat.mul_div_cancel_left K (by norm_num)

/-- Helper: an over-full category is pruned to the last `9K/10` entries of
its oldest-first ordering. -/
lemma enforceCategoryLimit_eq (dirs : List CaseDir) (K : Nat)
    (h : dirs.length > K) :
    enforceCategoryLimit dirs (K : Int) =
      (sortOldestFirst dirs).drop (dirs.length - 9 * K / 10) := by
  unfold enforceCategoryLimit pruneOldest
  rw [if_pos (by exact_mod_cast Nat.zero_le K),
    if_pos (by exact_mod_cast h),
    if_neg (by exact_mod_cast Nat.not_lt_zero (pruneTarget (K : Int).toNat))]
  have htn : ((K : Int)).toNat = K := by simp
  have hmin : pruneTarget K = 9 * K / 10 := min_eq_left (div910_le K)
  rw [htn, hmin, dropToKeepInt_eq_drop]
  rw [sortOldestFirst, List.length_insertionSort]

/-- C4: a prunable category holding `K + d` case directories (`d > 0`) is
pruned oldest-first by modification time down to exactly `⌊K * 0.90⌋`
entries — the tail of the oldest-first ordering — and no pruned directory
is more recently modified than a survivor. -/
theorem category_prune_watermark (dirs : List CaseDir) (K d : Nat)
    (hd : 0 < d) (hlen : dirs.length = K + d) :
    (enforceCategoryLimit dirs (K : Int)).length = 9 * K / 10 ∧
    enforceCategoryLimit dirs (K : Int) =
      (sortOldestFirst dirs).drop (dirs.length - 9 * K / 10) ∧
    ((enforceCategoryLimit dirs (K : Int)).all fun a =>
      ((sortOldestFirst dirs).take (dirs.length - 9 * K / 10)).all fun b =>
        decide (b.mtime ≤ a.mtime)) = true := by
  have hgt : dirs.length > K := by omega
  have heq := enforceCategoryLimit_eq dirs K hgt
  refine ⟨?_, heq, ?_⟩
  · rw [heq, List.length_drop, sortOldestFirst, List.length_insertionSort]
    have := div910_le K
    omega
  · rw [heq]
    simp only [List.all_eq_true, decide_eq_true_eq]
    intro a ha b hb
    exact (List.sorted_insertionSort mtimeLE dirs).rel_of_mem_take_of_mem_drop
      hb ha

/-- Witness for C4 at `K = 2`, `d = 1`: three cases are pruned down to
`⌊2 * 0.9⌋ = 1` survivor, the most recently modified one. -/
theorem category_prune_watermark_witness :
    0 < 1 ∧
    ([⟨"a", 3, 10⟩, ⟨"b", 1, 10⟩, ⟨"c", 2, 10⟩] : List CaseDir).length
      = 2 + 1 ∧
    ((enforceCategoryLimit [⟨"a", 3, 10⟩, ⟨"b", 1, 10⟩, ⟨"c", 2, 10⟩]
        ((2 : Nat) : Int)).length = 9 * 2 / 10 ∧
      enforceCategoryLimit [⟨"a", 3, 10⟩, ⟨"b", 1, 10⟩, ⟨"c", 2, 10⟩]
          ((2 : Nat) : Int) =
        (sortOldestFirst [⟨"a", 3, 10⟩, ⟨"b", 1, 10⟩, ⟨"c", 2, 10⟩]).drop
          (([⟨"a", 3, 10⟩, ⟨"b", 1, 10⟩, ⟨"c", 2, 10⟩] : List CaseDir).length
            - 9 * 2 / 10) ∧
      ((enforceCategoryLimit [⟨"a", 3, 10⟩, ⟨"b", 1, 10⟩, ⟨"c", 2, 10⟩]
          ((2 : Nat) : Int)).all fun a =>
        ((sortOldestFirst [⟨"a", 3, 10⟩, ⟨"b", 1, 10⟩, ⟨"c", 2, 10⟩]).take
          (([⟨"a", 3, 10⟩, ⟨"b", 1, 10⟩, ⟨"c", 2, 10⟩] : List CaseDir).length
            - 9 * 2 / 10)).all fun b =>
          decide (b.mtime ≤ a.mtime)) = true) :=
  ⟨by decide, by decide,
    category_prune_watermark [⟨"a", 3, 10⟩, ⟨"b", 1, 10⟩, ⟨"c", 2, 10⟩] 2 1
      (by decide) (by decide)⟩

/-- C5: the global case-count cap and the global byte-size cap delete case
directories only under success and error; the hang, crash, fate and
miscompilation categories are untouched by those two steps, for every input
state and cap configuration. -/
theorem global_caps_touch_only_success_error
    (maxCases maxResultsBytes : Option Int) (st : ResultsState) :
    (globalByteCap maxResultsBytes (globalCountCap maxCases st)).hang
        = st.hang ∧
    (globalByteCap maxResultsBytes (globalCountCap maxCases st)).crash
        = st.crash ∧
    (globalByteCap maxResultsBytes (globalCountCap maxCases st)).fate
        = st.fate ∧
    (globalByteCap maxResultsBytes (globalCountCap maxCases st)).miscompilation
        = st.miscompilation := by
  cases maxCases <;> cases maxResultsBytes <;>
    simp [globalCountCap, globalByteCap]

/-- Helper: once the per-parent counter is at or above the promotion cap,
one promotion opportunity writes nothing and leaves the counter unchanged. -/
lemma promoteStep_at_cap (cap : Int) (pre : String) (nmax : Int)
    (count : Int) (ev : PromotionEvent) (h : count ≥ cap) :
    promoteStep cap pre nmax count ev = (none, count) := by
  cases he : ev.eligible
  · simp [promoteStep, he]
  · simp only [promoteStep, he, Bool.not_true, Bool.false_eq_true, if_false]
    rcases le_or_lt cap 0 with hc | hc
    · rw [if_pos hc]
    · rw [if_neg (by omega), if_pos h]

/-- C6: once a parent seed's promotion counter has reached the cap, no
later promotion opportunity of that parent ever writes into the promoted
pool; and a promotion that does go ahead while the current `<prefix>N`
directory already holds at least `new_seeds_max` files writes into the
fresh directory whose numeric suffix is one above the highest existing
one. -/
theorem promotion_cap_and_rollover (cap : Int) (pre : String) (nmax : Int) :
    (∀ (count : Int) (events : List PromotionEvent), count ≥ cap →
      ((runPromotions cap pre nmax count events).all
        fun w => w == none) = true) ∧
    (∀ (count : Int) (ev : PromotionEvent), ev.eligible = true →
      0 < cap → count < cap → 0 < nmax → (ev.currentFiles : Int) ≥ nmax →
      (promoteStep cap pre nmax count ev).1 =
        some (pre ++ toString (maxPromotedSuffix ev.dirNames pre + 1))) := by
  constructor
  · intro count events
    induction events generalizing count with
    | nil => intro _; rfl
    | cons ev rest ih =>
      intro h
      rw [runPromotions, promoteStep_at_cap cap pre nmax count ev h]
      simp only [List.all_cons, beq_self_eq_true, Bool.true_and]
      exact ih count h
  · intro count ev he hcap hcount hnmax hfull
    simp only [promoteStep, he, Bool.not_true, if_false, Bool.false_eq_true]
    rw [if_neg (by omega), if_neg (by omega)]
    simp only [maybeRollPromotedDir]
    rw [if_neg (by omega), if_pos hfull]
    rfl

/-- Witness for C6: with cap 2 a parent already at 2 promotions writes
nothing more; and a promotion from a directory holding 5 ≥ 5 files rolls
to `new4`, one above the highest existing suffix among `new1`, `new3`. -/
theorem promotion_cap_and_rollover_witness :
    ((2 : Int) ≥ 2 ∧
      ((runPromotions 2 "new" 5 2 [⟨true, "new1", 0, ["new1"]⟩]).all
        fun w => w == none) = true) ∧
    ((⟨true, "new1", 5, ["new1", "new3"]⟩ : PromotionEvent).eligible = true ∧
      (promoteStep 2 "new" 5 0 ⟨true, "new1", 5, ["new1", "new3"]⟩).1 =
        some ("new" ++ toString
          (maxPromotedSuffix ["new1", "new3"] "new" + 1))) :=
  ⟨⟨by decide,
      (promotion_cap_and_rollover 2 "new" 5).1 2
        [⟨true, "new1", 0, ["new1"]⟩] (by decide)⟩,
    ⟨rfl,
      (promotion_cap_and_rollover 2 "new" 5).2 0
        ⟨true, "new1", 5, ["new1", "new3"]⟩ rfl (by decide) (by decide)
        (by decide) (by decide)⟩⟩

/-! ## Scoring (`SeedSelector._score_one`) -/

/-- `dict.get` on the score cache keyed by `(path, mtime_ns)`. -/
def cacheLookup (cache : List ((String × Int) × Int)) (k : String × Int) :
    Option Int :=
  match cache with
  | [] => none
  | (k', v) :: t => if k' = k then some v else cacheLookup t k

/-- `_score_one`: on a cache miss, ask the external complexity scorer
(modelled by `scorer`, returning the `extra` metric map) for
`constraint_choice_sum`; fall back to `max 1 (depth * 20 + cycles)` when
that is not positive; cache the computed value. Always return
`max 1 cached`. The third component records whether the complexity metric
was recomputed (cache miss). -/
def scoreOne (scorer : String → List (String × Int)) (path : String)
    (mtimeNs : Int) (cache : List ((String × Int) × Int)) :
    Int × List ((String × Int) × Int) × Bool :=
  match cacheLookup cache (path, mtimeNs) with
  | some c => (max 1 c, cache, false)
  | none =>
    let extra := scorer path
    let score0 := (extra.lookup "constraint_choice_sum").getD 0
    let score :=
      if score0 ≤ 0 then
        max 1 (((extra.lookup "depth").getD 0) * 20
          + ((extra.lookup "cycles").getD 0))
      else score0
    (max 1 score, ((path, mtimeNs), score) :: cache, true)

/-! ## Duplicate-mutant suppression (`_is_duplicate_mutation` and the
mutation loop of `worker_main`) -/

/-- The per-strategy set of already-seen mutant hashes
(`seen_mutations_by_strategy.setdefault(strategy, set())`). -/
def seenOf (seen : List (String × List String)) (s : String) : List String :=
  (seen.lookup s).getD []

/-- `_is_duplicate_mutation`: an empty strategy is never a duplicate;
otherwise hash the content (`hash` abstracts sha-256) and test-and-insert
into the strategy's seen set. -/
def isDuplicateMutation (hash : String → String)
    (seen : List (String × List String)) (strategy content : String) :
    Bool × List (String × List String) :=
  if strategy == "" then (false, seen)
  else
    let h := hash content
    let seenSet := seenOf seen strategy
    if seenSet.contains h then (true, seen)
    else (false, (strategy, h :: seenSet) :: removeKey seen strategy)

/-- One selected seed's successful-mutation stream, as the dedup gate sees
it: a produced mutant (strategy, content), or the
`seen_mutations_by_strategy = {}` reset performed after a successful
structural/chaining mutation. -/
inductive MutationEvent
  | mutant (strategy content : String)
  | chainReset
deriving Repr, DecidableEq

/-- The dedup gate of `worker_main` over one seed's mutant stream: a mutant
flagged duplicate is discarded before compilation; a non-duplicate is
compiled and persisted (returned); a chaining success resets the seen map.
Returns the persisted `(strategy, content)` records in order. -/
def processMutants (hash : String → String) :
    List MutationEvent → List (String × List String) →
      List (String × String)
  | [], _ => []
  | MutationEvent.chainReset :: rest, _ => processMutants hash rest []
  | MutationEvent.mutant s c :: rest, seen =>
    let r := isDuplicateMutation hash seen s c
    if r.1 then processMutants hash rest r.2
    else (s, c) :: processMutants hash rest r.2

/-! ## Theorems: C8 and C9 -/

/-- C8: `_score_one` always returns a score `≥ 1`; and a second request for
the same `(path, mtime_ns)` key against the updated cache returns the
identical value, leaves the cache unchanged, and does not recompute the
complexity metric. -/
theorem score_floor_and_cache (scorer : String → List (String × Int))
    (path : String) (mtimeNs : Int)
    (cache : List ((String × Int) × Int)) :
    1 ≤ (scoreOne scorer path mtimeNs cache).1 ∧
    scoreOne scorer path mtimeNs (scoreOne scorer path mtimeNs cache).2.1 =
      ((scoreOne scorer path mtimeNs cache).1,
        (scoreOne scorer path mtimeNs cache).2.1, false) := by
  cases hcl : cacheLookup cache (path, mtimeNs) with
  | some c =>
    refine ⟨by simp [scoreOne, hcl], ?_⟩
    simp [scoreOne, hcl]
  | none =>
    refine ⟨by simp [scoreOne, hcl], ?_⟩
    simp [scoreOne, hcl, cacheLookup]

/-- Helper: deleting one key of an association list leaves every other
key's lookup unchanged. -/
lemma lookup_removeKey_ne {α : Type} {s k : String} (h : s ≠ k) :
    ∀ (m : List (String × α)), (removeKey m k).lookup s = m.lookup s := by
  intro m
  induction m with
  | nil => rfl
  | cons p t ih =>
    obtain ⟨a, b⟩ := p
    by_cases ha : a = k
    · have hsa : (s == a) = false := by
        refine beq_eq_false_iff_ne.mpr ?_
        intro hEq
        exact h (hEq.trans ha)
      simp only [removeKey, List.filter_cons] at ih ⊢
      rw [if_neg (by simp [ha])]
      rw [ih]
      simp [List.lookup, hsa]
    · simp only [removeKey, List.filter_cons] at ih ⊢
      rw [if_pos (by simp [ha])]
      cases hsa : (s == a) with
      | true => simp [List.lookup, hsa]
      | false => simp [List.lookup, hsa, ih]

/-- Helper: the seen set of the strategy just updated. -/
lemma seenOf_cons_self (m : List (String × List String)) (s : String)
    (l : List String) : seenOf ((s, l) :: m) s = l := by
  simp [seenOf, List.lookup]

/-- Helper: updating one strategy's seen set leaves the others unchanged. -/
lemma seenOf_cons_ne (m : List (String × List String)) {s k : String}
    (l : List String) (h : s ≠ k) : seenOf ((k, l) :: m) s = seenOf m s := by
  have hsk : (s == k) = false := beq_eq_false_iff_ne.mpr h
  simp [seenOf, List.lookup, hsk]

/-- Helper: `removeKey` leaves other strategies' seen sets unchanged. -/
lemma seenOf_removeKey_ne (m : List (String × List String)) {s k : String}
    (h : s ≠ k) : seenOf (removeKey m k) s = seenOf m s := by
  unfold seenOf
  rw [lookup_removeKey_ne h m]

/-- Helper: once a hash is in a strategy's seen set, no later mutant of
that strategy with that hash is ever persisted — as long as no chaining
reset intervenes and strategies are non-empty. -/
lemma not_in_processMutants (hash : String → String) :
    ∀ (events : List MutationEvent) (seen : List (String × List String))
      (s hsh : String),
      MutationEvent.chainReset ∉ events →
      (∀ s' c', MutationEvent.mutant s' c' ∈ events → s' ≠ "") →
      hsh ∈ seenOf seen s →
      ∀ c, (s, c) ∈ processMutants hash events seen → hash c ≠ hsh := by
  intro events
  induction events with
  | nil =>
    intro seen s hsh _ _ _ c hc
    exact absurd hc (List.not_mem_nil _)
  | cons e rest ih =>
    intro seen s hsh hnr hne hseen c hc
    cases e with
    | chainReset => exact absurd (List.mem_cons_self _ _) hnr
    | mutant s' c' =>
      have hnr' : MutationEvent.chainReset ∉ rest := fun hm =>
        hnr (List.mem_cons_of_mem _ hm)
      have hne' : ∀ s'' c'', MutationEvent.mutant s'' c'' ∈ rest →
          s'' ≠ "" := fun s'' c'' hm =>
        hne s'' c'' (List.mem_cons_of_mem _ hm)
      have hs' : s' ≠ "" := hne s' c' (List.mem_cons_self _ _)
      have hs'f : (s' == "") = false := beq_eq_false_iff_ne.mpr hs'
      simp only [processMutants, isDuplicateMutation, hs'f,
        Bool.false_eq_true, if_false] at hc
      cases hdup : (seenOf seen s').contains (hash c') with
      | true =>
        simp only [hdup, if_true] at hc
        exact ih seen s hsh hnr' hne' hseen c hc
      | false =>
        simp only [hdup, Bool.false_eq_true, if_false] at hc
        rcases List.mem_cons.mp hc with hEq | hmem
        · injection hEq with h1 h2
          subst h1
          subst h2
          intro hchsh
          rw [hchsh] at hdup
          exact (by simpa using hdup : ¬hsh ∈ seenOf seen s) hseen
        · by_cases hss : s = s'
          · subst hss
            refine ih _ s hsh hnr' hne' ?_ c hmem
            rw [seenOf_cons_self]
            exact List.mem_cons_of_mem _ hseen
          · refine ih _ s hsh hnr' hne' ?_ c hmem
            rw [seenOf_cons_ne _ _ hss, seenOf_removeKey_ne _ hss]
            exact hseen

/-- Helper: absent chaining resets, the persisted records carry pairwise
distinct hashes per strategy, from any starting seen map. -/
lemma processMutants_pairwise (hash : String → String) :
    ∀ (events : List MutationEvent) (seen : List (String × List String)),
      MutationEvent.chainReset ∉ events →
      (∀ s c, MutationEvent.mutant s c ∈ events → s ≠ "") →
      List.Pairwise (fun a b => ¬(a.1 = b.1 ∧ hash a.2 = hash b.2))
        (processMutants hash events seen) := by
  intro events
  induction events with
  | nil =>
    intro seen _ _
    exact List.Pairwise.nil
  | cons e rest ih =>
    intro seen hnr hne
    cases e with
    | chainReset => exact absurd (List.mem_cons_self _ _) hnr
    | mutant s c =>
      have hnr' : MutationEvent.chainReset ∉ rest := fun hm =>
        hnr (List.mem_cons_of_mem _ hm)
      have hne' : ∀ s'' c'', MutationEvent.mutant s'' c'' ∈ rest →
          s'' ≠ "" := fun s'' c'' hm =>
        hne s'' c'' (List.mem_cons_of_mem _ hm)
      have hs : s ≠ "" := hne s c (List.mem_cons_self _ _)
      have hsf : (s == "") = false := beq_eq_false_iff_ne.mpr hs
      simp only [processMutants, isDuplicateMutation, hsf,
        Bool.false_eq_true, if_false]
      cases hdup : (seenOf seen s).contains (hash c) with
      | true =>
        simp only [hdup, if_true]
        exact ih seen hnr' hne'
      | false =>
        simp only [hdup, Bool.false_eq_true, if_false]
        refine List.Pairwise.cons ?_ (ih _ hnr' hne')
        intro b hb hcontra
        obtain ⟨hb1, hb2⟩ := hcontra
        have hb1' : s = b.1 := hb1
        have hpair : ((s : String), b.2) = b := by
          rw [hb1']
        have hmem : (s, b.2) ∈ processMutants hash rest
            ((s, hash c :: seenOf seen s) :: removeKey seen s) := by
          rw [hpair]
          exact hb
        refine not_in_processMutants hash rest _ s (hash c) hnr' hne' ?_ b.2
          hmem hb2.symm
        rw [seenOf_cons_self]
        exact List.mem_cons_self _ _

/-- C9 counterexample: with the dedup state reset by a successful
structural/chaining mutation (as `worker_main` does), a byte-identical
`constraint_injection` mutant of the same seed is persisted a second
time — the claim as stated fails. -/
theorem duplicate_persisted_after_chain_reset :
    processMutants (fun c => c)
      [MutationEvent.mutant "constraint_injection" "X",
        MutationEvent.mutant "add_trait" "S",
        MutationEvent.chainReset,
        MutationEvent.mutant "constraint_injection" "X"] []
      = [("constraint_injection", "X"), ("add_trait", "S"),
        ("constraint_injection", "X")] ∧
    ¬ List.Pairwise (fun a b => ¬(a.1 = b.1 ∧ a.2 = b.2))
      (processMutants (fun c => c)
        [MutationEvent.mutant "constraint_injection" "X",
          MutationEvent.mutant "add_trait" "S",
          MutationEvent.chainReset,
          MutationEvent.mutant "constraint_injection" "X"] []) := by
  constructor
  · rfl
  · decide

/-- C9 as amended: within one fuzz pass of a selected seed, and provided no
successful structural/chaining mutation resets the duplicate-tracking state
in between, two mutants with equal content hash (in particular
byte-identical content) for the same strategy are never both persisted —
the second is discarded before compilation. -/
theorem no_duplicate_persisted_without_reset (hash : String → String)
    (events : List MutationEvent)
    (hnr : MutationEvent.chainReset ∉ events)
    (hne : ∀ s c, MutationEvent.mutant s c ∈ events → s ≠ "") :
    List.Pairwise (fun a b => ¬(a.1 = b.1 ∧ hash a.2 = hash b.2))
      (processMutants hash events []) :=
  processMutants_pairwise hash events [] hnr hne

/-- Witness for the amended C9: a stream with a repeated byte-identical
mutant and no chaining reset persists pairwise-distinct records. -/
theorem no_duplicate_persisted_without_reset_witness :
    MutationEvent.chainReset ∉
      [MutationEvent.mutant "constraint_injection" "X",
        MutationEvent.mutant "constraint_injection" "X",
        MutationEvent.mutant "constraint_injection" "Y"] ∧
    List.Pairwise (fun a b => ¬(a.1 = b.1 ∧ (fun c => c) a.2
        = (fun c => c) b.2))
      (processMutants (fun c => c)
        [MutationEvent.mutant "constraint_injection" "X",
          MutationEvent.mutant "constraint_injection" "X",
          MutationEvent.mutant "constraint_injection" "Y"] []) :=
  ⟨by decide,
    no_duplicate_persisted_without_reset (fun c => c)
      [MutationEvent.mutant "constraint_injection" "X",
        MutationEvent.mutant "constraint_injection" "X",
        MutationEvent.mutant "constraint_injection" "Y"]
      (by decide)
      (by
        intro s c h
        rcases List.mem_cons.mp h with h1 | h
        · injection h1 with h1 _
          subst h1
          decide
        rcases List.mem_cons.mp h with h1 | h
        · injection h1 with h1 _
          subst h1
          decide
        rcases List.mem_cons.mp h with h1 | h
        · injection h1 with h1 _
          subst h1
          decide
        · exact absurd h (List.not_mem_nil _))⟩

/-! ## Theorems: C7 and C10 -/

/-- C7: the overall status reported for a mutant equals the maximum of its
per-configuration statuses under CRASH > HANG > ERROR > SUCCESS > UNKNOWN,
over whichever of stable / nightly / next-solver were actually run: it is
one of the run statuses, and every run status ranks no higher. -/
theorem overallStatus_is_max (rStable : CompilationStatus)
    (rNightly rNext : Option CompilationStatus) :
    overallStatus rStable rNightly rNext ∈ runStatuses rStable rNightly rNext ∧
      ∀ s ∈ runStatuses rStable rNightly rNext,
        rank s ≤ rank (overallStatus rStable rNightly rNext) := by
  revert rStable rNightly rNext
  decide

/-- C10: on a compiler invocation that completes without timeout or spawn
failure, the status is CRASH exactly when an ICE marker occurs
(case-insensitively) in stderr — even with exit code 0; absent a marker,
the status is SUCCESS iff the exit code is 0, and ERROR iff it is not. -/
theorem compileStatus_classification (returncode : Int) (stderr : String) :
    (compileStatus returncode stderr = CRASH ↔ crashMarker stderr = true) ∧
      (compileStatus returncode stderr = SUCCESS ↔
        (crashMarker stderr = false ∧ returncode = 0)) ∧
      (compileStatus returncode stderr = ERROR ↔
        (crashMarker stderr = false ∧ returncode ≠ 0)) := by
  unfold compileStatus
  cases h : crashMarker stderr <;> by_cases h0 : returncode = 0 <;> simp [h0]

end TraitFuzzer
